import Mathlib

/-!
Verification of the taxonomic assignment engine of `bioy`
(`bioy_pkg/subcommands/classifier.py`).

The pipeline rows are modelled as explicit records; percent identities and
thresholds (floats used only for order comparisons in the source) are
modelled as rationals; nullable CSV/pandas cells are `Option`s.  Rank
columns are indexed positionally: position `0` is the MOST specific rank,
matching `classifier.py:626-629`, which calls `select_valid_hits` with
`list(reversed(ranks))` (the taxonomy columns are ordered least → most
specific starting at `root`, `classifier.py:591-595`).
-/

namespace Bioy

/-- One blast-result row for a query, after the taxonomy and threshold
joins (`classifier.py:597-622`): its percent identity, the tax_id at every
rank (`taxids[i]` is the column for the i-th most specific rank; a pandas
`NaN` cell is `none`), and the joined per-rank thresholds
(`{rank}_threshold` columns; `none` when the row's tax_id has no entry in
the rank-thresholds table). -/
structure Hit where
  pident : ℚ
  taxids : List (Option String)
  thresholds : List (Option ℚ)
deriving DecidableEq, Repr

/-- The tax_id of hit `h` at rank position `i` (`valid[r]` cell access). -/
def taxAt (h : Hit) (i : ℕ) : Option String := h.taxids.getD i none

/-- The threshold of hit `h` at rank position `i`
(`df['{}_threshold'.format(r)]` cell access). -/
def thAt (h : Hit) (i : ℕ) : Option ℚ := h.thresholds.getD i none

/-- Validity of one hit at rank position `i`: `thresholds < pidents`
(`classifier.py:357`).  In pandas a comparison with a `NaN` threshold is
`False`, so a missing threshold never validates. -/
def isValidAt (h : Hit) (i : ℕ) : Bool :=
  match thAt h i with
  | some t => decide (t < h.pident)
  | none => false

/-- `valid = df[thresholds < pidents]` (`classifier.py:357`): the sub-list
of hits passing their rank-`i` threshold, in row order. -/
def validAt (hits : List Hit) (i : ℕ) : List Hit :=
  hits.filter (fun h => isValidAt h i)

/-- `have_ids = valid[tax_ids.notnull()]` (`classifier.py:370`): the valid
hits that carry a tax_id directly at rank position `i`. -/
def haveIdsAt (hits : List Hit) (i : ℕ) : List Hit :=
  (validAt hits i).filter (fun h => (taxAt h i).isSome)

/-- Scan of `series[ranks[index:]]` for the first non-null tax_id
(`classifier.py:335-340`): walks the rank positions `j, j+1, ...` along the
given suffix of the tax_id columns and returns the first position holding a
value, with that value. -/
def firstNonNullAux : List (Option String) → ℕ → Option (ℕ × String)
  | [], _ => none
  | some v :: _, j => some (j, v)
  | none :: rest, j => firstNonNullAux rest (j + 1)

/-- First non-null tax_id of the row at rank position `≥ i`
(`series = series[ranks[index:]]; series = series[~series.isnull()];
found = series.head(n=1)`, `classifier.py:335-338`). -/
def firstNonNullFrom (tx : List (Option String)) (i : ℕ) : Option (ℕ × String) :=
  firstNonNullAux (tx.drop i) i

/-- `find_tax_id(series, valids, r, ranks)` (`classifier.py:330-341`):
for a row lacking a tax_id at rank position `i`, adopt the first non-null
tax_id at a less specific position `j`; return `None` when that value
already occurs among `valids[key].unique()` — the `valids` rows' tax_ids at
the ADOPTED position `j` (`key = found.index.values[0]`).  The source
raises `IndexError` when every position from `i` on is null; that
(unreachable with a populated `root` column) branch is modelled as `none`. -/
def find_tax_id (h : Hit) (valids : List Hit) (i : ℕ) : Option String :=
  match firstNonNullFrom h.taxids i with
  | some (j, v) =>
      if (valids.map (fun hv => taxAt hv j)).contains (some v) then none
      else some v
  | none => none

/-- A row of the frame returned by `select_valid_hits`: the hit with its
new `assignment_tax_id` and `assignment_threshold` columns
(`classifier.py:375-378`); rows whose assignment resolved to null are
already dropped, so both columns are non-null here. -/
structure Assigned where
  hit : Hit
  assignment_tax_id : String
  assignment_threshold : ℚ
deriving DecidableEq, Repr

/-- Resolution of one valid row at rank position `i`
(`classifier.py:359-378`): a row with a tax_id directly at `i` keeps it
(`tax_ids = valid[r]` / `have_ids[r]`); a row with a null cell gets
`find_tax_id` against the `have_ids` rows (`classifier.py:370-372`); the
row's `assignment_threshold` is its own rank-`i` threshold
(`classifier.py:376`).  A `none` result is a row dropped by the final
`valid[valid[ASSIGNMENT_TAX_ID].notnull()]` filter (`classifier.py:378`). -/
def resolveAt (haveIds : List Hit) (i : ℕ) (h : Hit) : Option Assigned :=
  match thAt h i with
  | none => none
  | some t =>
    match taxAt h i with
    | some v => some ⟨h, v, t⟩
    | none => (find_tax_id h haveIds i).map (fun v => ⟨h, v, t⟩)

/-- The frame returned when `select_valid_hits` stops at rank position `i`:
the valid rows, in row order, with resolved non-null assignments
(`classifier.py:375-378`). -/
def outputAt (hits : List Hit) (i : ℕ) : List Assigned :=
  (validAt hits i).filterMap (resolveAt (haveIdsAt hits i) i)

/-- The `for r in ranks:` loop of `select_valid_hits`
(`classifier.py:354-378`), recursing on the number of remaining rank
positions (`fuel` = ranks not yet examined, so position `i` with fuel
`f+1` examines positions `i .. i+f`).  Branches, in source order: an empty
valid set falls through to the next rank (`if not valid.empty`,
`classifier.py:358`); a valid set whose tax_ids are all null at this rank
continues (`if na_ids.all(): continue`, `classifier.py:365-366`);
otherwise the resolved frame is returned together with the rank position
at which the loop stopped.  Falling off the loop returns `None` (the
query's group is dropped by `groupby.apply`). -/
def selectFromAux (hits : List Hit) : ℕ → ℕ → Option (ℕ × List Assigned)
  | _, 0 => none
  | i, fuel + 1 =>
    let valid := validAt hits i
    if valid.isEmpty then selectFromAux hits (i + 1) fuel
    else if valid.all (fun h => (taxAt h i).isNone) then
      selectFromAux hits (i + 1) fuel
    else some (i, outputAt hits i)

/-- `select_valid_hits(df, ranks)` (`classifier.py:344-378`) over the
hits of one query, with `n` rank positions ordered most → least specific
(the reversed taxonomy rank columns, `classifier.py:626-629`).  The
returned `ℕ` records the rank position at which the loop returned. -/
def select_valid_hits (hits : List Hit) (n : ℕ) : Option (ℕ × List Assigned) :=
  selectFromAux hits 0 n

/-- A rank position yields a result exactly when some hit passes its
threshold AND carries a non-null tax_id at that position. -/
def goodB (hits : List Hit) (i : ℕ) : Bool :=
  (validAt hits i).any (fun h => (taxAt h i).isSome)

theorem all_isNone_eq_not_any_isSome (l : List Hit) (i : ℕ) :
    (l.all (fun h => (taxAt h i).isNone)) = !(l.any (fun h => (taxAt h i).isSome)) := by
  induction l with
  | nil => rfl
  | cons h t ih =>
      simp only [List.all_cons, List.any_cons, ih, Bool.not_or]
      cases hx : taxAt h i <;> simp

theorem selectFromAux_step (hits : List Hit) (i fuel : ℕ) :
    selectFromAux hits i (fuel + 1) =
      if goodB hits i then some (i, outputAt hits i)
      else selectFromAux hits (i + 1) fuel := by
  simp only [selectFromAux, goodB, all_isNone_eq_not_any_isSome]
  rcases Bool.eq_false_or_eq_true
      ((validAt hits i).any fun h => (taxAt h i).isSome) with hA | hA
  · have hne : (validAt hits i).isEmpty = false := by
      cases hv : validAt hits i with
      | nil => rw [hv] at hA; simp at hA
      | cons a l => simp [hv]
    simp [hA, hne]
  · simp [hA]

/-- Characterization of the selector loop: a returned pair comes from the
first good rank position at or after `i` within the remaining fuel. -/
theorem selectFromAux_spec (hits : List Hit) :
    ∀ fuel i j out, selectFromAux hits i fuel = some (j, out) →
      i ≤ j ∧ j < i + fuel ∧ goodB hits j = true ∧
        (∀ k, i ≤ k → k < j → goodB hits k = false) ∧ out = outputAt hits j := by
  intro fuel
  induction fuel with
  | zero =>
      intro i j out h
      exact Option.noConfusion ((rfl : (none : Option (ℕ × List Assigned)) =
        selectFromAux hits i 0).trans h)
  | succ f ih =>
      intro i j out h
      rw [selectFromAux_step] at h
      cases hg : goodB hits i with
      | true =>
          simp only [hg, if_true] at h
          obtain ⟨rfl, rfl⟩ : i = j ∧ outputAt hits i = out := by
            constructor <;> [exact congrArg Prod.fst (Option.some.inj h);
              exact congrArg Prod.snd (Option.some.inj h)]
          refine ⟨le_refl _, by omega, hg, ?_, rfl⟩
          intro k hk1 hk2; omega
      | false =>
          simp only [hg, if_false] at h
          obtain ⟨h1, h2, h3, h4, h5⟩ := ih (i + 1) j out h
          refine ⟨by omega, by omega, h3, ?_, h5⟩
          intro k hk1 hk2
          rcases Nat.eq_or_lt_of_le hk1 with rfl | hlt
          · exact hg
          · exact h4 k hlt hk2

theorem resolveAt_hit (haveIds : List Hit) (i : ℕ) (h : Hit) (a : Assigned)
    (hres : resolveAt haveIds i h = some a) : a.hit = h := by
  unfold resolveAt at hres
  cases hth : thAt h i with
  | none => rw [hth] at hres; exact absurd hres (by simp)
  | some t =>
      rw [hth] at hres
      cases htx : taxAt h i with
      | some v =>
          rw [htx] at hres
          cases hres; rfl
      | none =>
          rw [htx] at hres
          cases hfd : find_tax_id h haveIds i with
          | none => rw [hfd] at hres; exact absurd hres (by simp)
          | some v => rw [hfd] at hres; cases hres; rfl

theorem mem_outputAt_valid (hits : List Hit) (i : ℕ) (a : Assigned)
    (ha : a ∈ outputAt hits i) : a.hit ∈ validAt hits i := by
  obtain ⟨h, hm, hres⟩ := List.mem_filterMap.mp ha
  rw [resolveAt_hit _ _ _ _ hres]
  exact hm

/-- C1 (amended): `select_valid_hits` evaluates rank positions from most
specific (position 0) to least specific and returns at the FIRST position
having a hit that passes its threshold AND carries a non-null tax_id
there; every earlier (more specific) position has no such hit — in
particular a position whose threshold-passing hits all lack a tax_id at
that position is skipped even though its valid set is non-empty
(`classifier.py:365-366`).  Every returned row's hit passed the threshold
of the returning position. -/
theorem select_valid_hits_first_rank (hits : List Hit) (n i : ℕ) (out : List Assigned)
    (hsel : select_valid_hits hits n = some (i, out)) :
    i < n ∧ (∃ h ∈ validAt hits i, (taxAt h i).isSome = true) ∧
      (∀ j, j < i → ∀ h ∈ validAt hits j, taxAt h j = none) ∧
      ∀ a ∈ out, a.hit ∈ validAt hits i := by
  obtain ⟨h1, h2, h3, h4, h5⟩ := selectFromAux_spec hits n 0 i out hsel
  refine ⟨by omega, List.any_eq_true.mp h3, ?_, ?_⟩
  · intro j hj h hm
    have hfalse := List.any_eq_false.mp (h4 j (Nat.zero_le j) hj) h hm
    exact Option.not_isSome_iff_eq_none.mp hfalse
  · intro a ha
    rw [h5] at ha
    exact mem_outputAt_valid hits i a ha

/-- A hit passing its most-specific-rank threshold with a tax_id there. -/
def hitW1 : Hit := ⟨99, [some "S"], [some 90]⟩

/-- Witness for C1's theorem at a one-hit, one-rank input. -/
theorem select_valid_hits_first_rank_witness :
    0 < 1 ∧ (∃ h ∈ validAt [hitW1] 0, (taxAt h 0).isSome = true) ∧
      (∀ j, j < 0 → ∀ h ∈ validAt [hitW1] j, taxAt h j = none) ∧
      ∀ a ∈ [(⟨hitW1, "S", 90⟩ : Assigned)], a.hit ∈ validAt [hitW1] 0 :=
  select_valid_hits_first_rank [hitW1] 1 0 [⟨hitW1, "S", 90⟩] (by decide)

/-- A hit that passes the most specific rank's threshold (90 < 99) but has
no tax_id there, and also passes the next rank's threshold with tax_id G. -/
def hitC1 : Hit := ⟨99, [none, some "G"], [some 90, some 80]⟩

/-- C1 counterexample: at rank position 0 the set of hits passing the
threshold is non-empty, yet the selector examines the less specific
position 1 and returns its assignment — refuting, at this input, the
claim that no less-specific rank is examined once some rank yields a
non-empty valid set. -/
theorem select_valid_hits_skips_nonempty_rank :
    (validAt [hitC1] 0).isEmpty = false ∧
      select_valid_hits [hitC1] 2 = some (1, [⟨hitC1, "G", 80⟩]) := by
  decide

/-- C2: membership in the rank-`i` valid set is the STRICT comparison
`threshold < pident` (`classifier.py:357`); a hit whose pident equals its
joined rank-`i` threshold is not valid at `i` and its rows never appear in
a frame returned at rank position `i`. -/
theorem pident_strict_threshold (h : Hit) (i : ℕ) (t : ℚ)
    (ht : thAt h i = some t) :
    (isValidAt h i = true ↔ t < h.pident) ∧
    (h.pident = t → ∀ hits n out, select_valid_hits hits n = some (i, out) →
      ∀ a ∈ out, a.hit ≠ h) := by
  constructor
  · unfold isValidAt
    rw [ht]
    exact ⟨of_decide_eq_true, decide_eq_true⟩
  · intro heq hits n out hsel a ha hah
    obtain ⟨_, _, _, _, h5⟩ := selectFromAux_spec hits n 0 i out hsel
    rw [h5] at ha
    have hmem : a.hit ∈ validAt hits i := mem_outputAt_valid hits i a ha
    have hv : isValidAt a.hit i = true := (List.mem_filter.mp hmem).2
    rw [hah] at hv
    unfold isValidAt at hv
    rw [ht] at hv
    have hlt : t < h.pident := of_decide_eq_true hv
    rw [heq] at hlt
    exact lt_irrefl t hlt

/-- Witness for C2's theorem: threshold 90 joined at position 0. -/
theorem pident_strict_threshold_witness :
    (isValidAt hitW1 0 = true ↔ (90 : ℚ) < hitW1.pident) ∧
    (hitW1.pident = 90 → ∀ hits n out, select_valid_hits hits n = some (0, out) →
      ∀ a ∈ out, a.hit ≠ hitW1) :=
  pident_strict_threshold hitW1 0 90 rfl

/-- C3 (amended): at the returning rank position `i`, a threshold-passing
hit with a null tax_id at `i` adopts the first non-null tax_id `v` found
at a less specific position `j`, and is kept exactly when `v` is NOT
already among the tax_ids of the direct-id hits AT THE ADOPTED POSITION
`j` (`valids[key].unique()`, `classifier.py:341`) — not their tax_ids at
rank position `i` itself; when `v` occurs there, the hit is dropped from
the returned frame. -/
theorem find_tax_id_duplicate_rank (hits : List Hit) (n i j : ℕ)
    (out : List Assigned) (h : Hit) (v : String)
    (hsel : select_valid_hits hits n = some (i, out))
    (hmem : h ∈ hits) (hval : isValidAt h i = true) (hna : taxAt h i = none)
    (hfn : firstNonNullFrom h.taxids i = some (j, v)) :
    (((haveIdsAt hits i).map (fun hb => taxAt hb j)).contains (some v) = true →
        ∀ a ∈ out, a.hit ≠ h) ∧
    (((haveIdsAt hits i).map (fun hb => taxAt hb j)).contains (some v) = false →
        ∃ t, thAt h i = some t ∧ (⟨h, v, t⟩ : Assigned) ∈ out) := by
  obtain ⟨_, _, _, _, h5⟩ := selectFromAux_spec hits n 0 i out hsel
  obtain ⟨t, hth⟩ : ∃ t, thAt h i = some t := by
    unfold isValidAt at hval
    cases hth : thAt h i with
    | none => rw [hth] at hval; exact absurd hval (by simp)
    | some t => exact ⟨t, rfl⟩
  have hres2 : resolveAt (haveIdsAt hits i) i h =
      (find_tax_id h (haveIdsAt hits i) i).map (fun w => ⟨h, w, t⟩) := by
    unfold resolveAt
    rw [hth, hna]
  constructor
  · intro hdup a ha hah
    rw [h5] at ha
    obtain ⟨h', hm', hres⟩ := List.mem_filterMap.mp ha
    have hh : h' = h := by rw [← (resolveAt_hit _ _ _ _ hres), hah]
    subst hh
    have hft : find_tax_id h' (haveIdsAt hits i) i = none := by
      unfold find_tax_id
      rw [hfn]
      exact if_pos hdup
    rw [hres2, hft] at hres
    simp at hres
  · intro hdup
    refine ⟨t, hth, ?_⟩
    rw [h5]
    have hvm : h ∈ validAt hits i := List.mem_filter.mpr ⟨hmem, hval⟩
    refine List.mem_filterMap.mpr ⟨h, hvm, ?_⟩
    have hft : find_tax_id h (haveIdsAt hits i) i = some v := by
      unfold find_tax_id
      rw [hfn]
      exact if_neg (by rw [hdup]; exact Bool.false_ne_true)
    rw [hres2, hft]
    rfl

/-- Valid hit with a direct species-level id S (and genus G above it). -/
def h31 : Hit := ⟨99, [some "S", some "G"], [some 97, some 97]⟩

/-- Valid hit with no species-level id; its nearest non-null ancestor id
is G at the genus position. -/
def h32 : Hit := ⟨99, [none, some "G"], [some 97, some 97]⟩

/-- Witness for C3's theorem: `h32`'s adopted id G already occurs among
the direct-id hits' tax_ids at the adopted position 1, so `h32` is
dropped from the returned frame. -/
theorem find_tax_id_duplicate_rank_witness :
    (((haveIdsAt [h31, h32] 0).map (fun hb => taxAt hb 1)).contains (some "G") = true →
        ∀ a ∈ [(⟨h31, "S", 97⟩ : Assigned)], a.hit ≠ h32) ∧
    (((haveIdsAt [h31, h32] 0).map (fun hb => taxAt hb 1)).contains (some "G") = false →
        ∃ t, thAt h32 0 = some t ∧ (⟨h32, "G", t⟩ : Assigned) ∈ [(⟨h31, "S", 97⟩ : Assigned)]) :=
  find_tax_id_duplicate_rank [h31, h32] 2 0 1 [⟨h31, "S", 97⟩] h32 "G"
    (by decide) (by decide) (by decide) (by decide) (by decide)

/-- C3 counterexample: `h32` passes the rank-0 threshold with a null
rank-0 tax_id and adopts G from position 1; G is NOT among the tax_ids
found directly at rank position 0 by the other valid hits (only S is), so
the claim requires `h32` to be returned with assignment G — but the
returned frame contains only the `h31` row: the source suppressed `h32`
because G occurs among the other valid hits' tax_ids at the ADOPTED
position 1. -/
theorem find_tax_id_rank_R_counterexample :
    select_valid_hits [h31, h32] 2 = some (0, [⟨h31, "S", 97⟩]) ∧
      firstNonNullFrom h32.taxids 0 = some (1, "G") ∧
      ((haveIdsAt [h31, h32] 0).map (fun hb => taxAt hb 0)).contains (some "G") = false := by
  decide

/-! ### Starring (`star`, `classifier.py:269-275`) -/

/-- `star(df, starred)`: the whole (specimen, assignment_hash,
condensed_id) group's `starred` flag is
`df.pident.apply(lambda x: x >= starred).any()` — true exactly when some
member's pident is at least the starred threshold (inclusive). -/
def star (pidents : List ℚ) (starred : ℚ) : Bool :=
  pidents.any (fun p => decide (starred ≤ p))

/-- C7: the group flag is true iff some member's pident reaches the
starred threshold; equivalently, for any maximal member `m`, iff
`starred ≤ m`; the boundary case `pident = starred` yields `true`. -/
theorem star_iff_any_ge (pidents : List ℚ) (starred : ℚ) :
    (star pidents starred = true ↔ ∃ p ∈ pidents, starred ≤ p) ∧
    (∀ m ∈ pidents, (∀ p ∈ pidents, p ≤ m) →
      (star pidents starred = true ↔ starred ≤ m)) ∧
    (∀ p ∈ pidents, p = starred → star pidents starred = true) := by
  have hiff : star pidents starred = true ↔ ∃ p ∈ pidents, starred ≤ p := by
    unfold star
    rw [List.any_eq_true]
    constructor
    · rintro ⟨p, hp, hd⟩
      exact ⟨p, hp, of_decide_eq_true hd⟩
    · rintro ⟨p, hp, hd⟩
      exact ⟨p, hp, decide_eq_true hd⟩
  refine ⟨hiff, ?_, ?_⟩
  · intro m hm hmax
    rw [hiff]
    constructor
    · rintro ⟨p, hp, hsp⟩
      exact le_trans hsp (hmax p hp)
    · intro hsm
      exact ⟨m, hm, hsm⟩
  · intro p hp hps
    rw [hiff]
    exact ⟨p, hp, le_of_eq hps.symm⟩

/-- Witness for C7's theorem: group pidents {98, 100}, threshold 100. -/
theorem star_iff_any_ge_witness :
    (star [98, 100] 100 = true ↔ ∃ p ∈ [(98 : ℚ), 100], 100 ≤ p) ∧
    (∀ m ∈ [(98 : ℚ), 100], (∀ p ∈ [(98 : ℚ), 100], p ≤ m) →
      (star [98, 100] 100 = true ↔ 100 ≤ m)) ∧
    (∀ p ∈ [(98 : ℚ), 100], p = 100 → star [98, 100] 100 = true) :=
  star_iff_any_ge [98, 100] 100

/-! ### Aggregated target rank (`target_rank`, `classifier.py:322-327`)

Here `ranks` is the UNREVERSED taxonomy column order: least specific
(`root`, position 0) to most specific (`classifier.py:730-731` passes
`ranks`).  `target_rank` keys each assignment_rank value by
`ranks.index(x) if x in ranks else -1`, sorts ascending and takes
`iloc[-1]`: an element of MAXIMAL key.  Among distinct values the key can
tie only at `-1`; pandas' unstable sort leaves that choice unspecified,
and the model takes the last such element. -/

/-- `ranks.index(x) if x in ranks else -1` (`classifier.py:326`). -/
def rankKey (ranks : List String) (x : String) : ℤ :=
  match ranks.findIdx? (fun r => r == x) with
  | some i => (i : ℤ)
  | none => -1

/-- `target_rank(s, ranks)` (`classifier.py:322-327`): an element of the
group's assignment_rank values attaining the maximal rank key. -/
def target_rank (ranks : List String) (s : List String) : Option String :=
  s.foldl (fun acc x =>
    match acc with
    | none => some x
    | some y => if rankKey ranks y ≤ rankKey ranks x then some x else some y) none

theorem target_rank_foldl_spec (ranks : List String) :
    ∀ (s : List String) (a : String),
      ∃ x, (x = a ∨ x ∈ s) ∧
        s.foldl (fun acc z =>
          match acc with
          | none => some z
          | some y => if rankKey ranks y ≤ rankKey ranks z then some z
            else some y) (some a) = some x ∧
        rankKey ranks a ≤ rankKey ranks x ∧
        ∀ y ∈ s, rankKey ranks y ≤ rankKey ranks x := by
  intro s
  induction s with
  | nil => exact fun a => ⟨a, Or.inl rfl, rfl, le_refl _, by simp⟩
  | cons b t ih =>
      intro a
      simp only [List.foldl_cons]
      by_cases hab : rankKey ranks a ≤ rankKey ranks b
      · obtain ⟨x, hx1, hx2, hx3, hx4⟩ := ih b
        refine ⟨x, ?_, by rw [if_pos hab]; exact hx2, le_trans hab hx3, ?_⟩
        · rcases hx1 with rfl | hx1
          · exact Or.inr (List.mem_cons_self _ _)
          · exact Or.inr (List.mem_cons_of_mem _ hx1)
        · intro y hy
          rcases List.mem_cons.mp hy with rfl | hy
          · exact le_trans (le_refl _) hx3
          · exact hx4 y hy
      · obtain ⟨x, hx1, hx2, hx3, hx4⟩ := ih a
        refine ⟨x, ?_, by rw [if_neg hab]; exact hx2, hx3, ?_⟩
        · rcases hx1 with rfl | hx1
          · exact Or.inl rfl
          · exact Or.inr (List.mem_cons_of_mem _ hx1)
        · intro y hy
          rcases List.mem_cons.mp hy with rfl | hy
          · exact le_trans (le_of_lt (lt_of_not_le hab)) hx3
          · exact hx4 y hy

/-- C5 (amended): for a non-empty group, `target_rank` reports an element
of the group attaining the MAXIMAL rank key — the MOST specific rank
present (rank keys grow from `root` rightwards; values missing from the
rank columns key to −1, below `root`). -/
theorem target_rank_most_specific (ranks : List String) (s : List String)
    (hne : s ≠ []) :
    ∃ x ∈ s, target_rank ranks s = some x ∧
      ∀ y ∈ s, rankKey ranks y ≤ rankKey ranks x := by
  cases s with
  | nil => exact absurd rfl hne
  | cons b t =>
      obtain ⟨x, hx1, hx2, _, hx4⟩ := target_rank_foldl_spec ranks t b
      refine ⟨x, ?_, ?_, ?_⟩
      · rcases hx1 with rfl | hx1
        · exact List.mem_cons_self _ _
        · exact List.mem_cons_of_mem _ hx1
      · unfold target_rank
        simpa using hx2
      · intro y hy
        rcases List.mem_cons.mp hy with rfl | hy
        · obtain ⟨x2, _, hx2b, hx3b, _⟩ := target_rank_foldl_spec ranks t y
          rw [hx2] at hx2b
          cases hx2b
          exact hx3b
        · exact hx4 y hy

/-- Witness for C5's theorem at a two-element group. -/
theorem target_rank_most_specific_witness :
    ∃ x ∈ ["genus", "species"],
      target_rank ["root", "genus", "species"] ["genus", "species"] = some x ∧
      ∀ y ∈ ["genus", "species"],
        rankKey ["root", "genus", "species"] y ≤ rankKey ["root", "genus", "species"] x :=
  target_rank_most_specific _ _ (List.cons_ne_nil _ _)

/-- C5 counterexample: a group holding ranks {genus, species} under the
root-first order ["root", "genus", "species"]; the least specific rank
present is "genus", but `target_rank` reports "species", the most
specific one (its rank key is strictly larger). -/
theorem target_rank_least_specific_counterexample :
    target_rank ["root", "genus", "species"] ["genus", "species"] = some "species" ∧
      ("species" : String) ≠ "genus" ∧
      rankKey ["root", "genus", "species"] "genus" <
        rankKey ["root", "genus", "species"] "species" := by
  decide

/-! ### Rank-threshold merge (`classifier.py:607-619`)

The default table is appended with the user's rows and collapsed by
`rank_thresholds.groupby(level=0).last()`.  pandas `GroupBy.last` takes,
per COLUMN, the last NON-NULL value among the group's rows in order
(default rows first, user rows after).  A table row is (tax_id, per-rank
cells), cells parallel to the rank columns; a missing cell is `none`. -/

/-- Per-column collapse of `groupby(level=0).last()`: the last non-null
value of the column across the rows of one tax_id group. -/
def lastNonNull (vals : List (Option ℚ)) : Option ℚ :=
  vals.foldl (fun acc v =>
    match v with
    | some x => some x
    | none => acc) none

/-- The merged threshold table's cell for `tid` at rank column `i`:
collapse the column-`i` cells of all rows carrying index `tid`, in append
order (`classifier.py:611-615`). -/
def mergedThreshold (table : List (String × List (Option ℚ)))
    (tid : String) (i : ℕ) : Option ℚ :=
  lastNonNull ((table.filter (fun r => r.1 == tid)).map (fun r => r.2.getD i none))

theorem lastNonNull_append_single (l : List (Option ℚ)) (v : Option ℚ) :
    lastNonNull (l ++ [v]) =
      match v with
      | some x => some x
      | none => lastNonNull l := by
  unfold lastNonNull
  rw [List.foldl_append]
  rfl

/-- C8 (amended): appending a user row for `tid` to the defaults and
collapsing with `groupby(level=0).last()` yields, per rank, the USER's
value where the user's cell is populated, and otherwise the value the
defaults table already held for `tid` at that rank — a per-rank
last-non-null merge, not a whole-row replacement. -/
theorem merged_threshold_user_override (defaults : List (String × List (Option ℚ)))
    (tid : String) (uvals : List (Option ℚ)) (i : ℕ) :
    mergedThreshold (defaults ++ [(tid, uvals)]) tid i =
      match uvals.getD i none with
      | some v => some v
      | none => mergedThreshold defaults tid i := by
  unfold mergedThreshold
  rw [List.filter_append]
  have hrow : List.filter (fun r => r.1 == tid) [(tid, uvals)] = [(tid, uvals)] := by
    simp [List.filter]
  rw [hrow, List.map_append]
  exact lastNonNull_append_single _ _

/-- C8 counterexample: default row for t1 holds (species 97, genus 90);
the user row holds (species 99, genus empty).  The merged genus threshold
is the DEFAULT's 90 — not the user row's (empty) genus value — so the
merge is a per-rank mix, not a full replacement of all ranks. -/
theorem merged_threshold_mix_counterexample :
    mergedThreshold [("t1", [some 97, some 90]), ("t1", [some 99, none])] "t1" 1
        = some 90 ∧
      [some (99 : ℚ), none].getD 1 none = none ∧
      mergedThreshold [("t1", [some (97 : ℚ), some 90])] "t1" 1 = some 90 := by
  decide

/-! ### Raw filtering (`raw_filtering`, `classifier.py:201-248`) and its
call site (`classifier.py:555`) -/

/-- One raw blast row before any join: query, subject (null for the
no-hit placeholder rows), percent identity and coverage. -/
structure BRow where
  qseqid : String
  sseqid : Option String
  pident : ℚ
  qcovs : ℚ
deriving DecidableEq, Repr

/-- `raw_filtering(blast_results, min_coverage, max_identity,
min_identity)` (`classifier.py:201-248`): each guard is a Python
truthiness test (`if min_coverage:`), so `None` and `0.0` both disable
the corresponding filter; the filters keep `qcovs >= min_coverage`,
`pident <= max_identity`, `pident >= min_identity`, applied in that
order. -/
def raw_filtering (blast_results : List BRow)
    (min_coverage max_identity min_identity : Option ℚ) : List BRow :=
  let b1 := match min_coverage with
    | some c => if c ≠ 0 then blast_results.filter (fun r => c ≤ r.qcovs)
      else blast_results
    | none => blast_results
  let b2 := match max_identity with
    | some c => if c ≠ 0 then b1.filter (fun r => r.pident ≤ c) else b1
    | none => b1
  match min_identity with
  | some c => if c ≠ 0 then b2.filter (fun r => c ≤ r.pident) else b2
  | none => b2

/-- The identity/coverage command-line arguments parsed by
`build_parser` (`classifier.py:490-504`), all defaulting to `None`. -/
structure Args where
  min_identity : Option ℚ
  max_identity : Option ℚ
  min_coverage : Option ℚ
deriving DecidableEq, Repr

/-- The only call of `raw_filtering` in the pipeline
(`classifier.py:555`): `raw_filtering(blast_results)` — no threshold
argument is passed, so every parameter takes its `None` default and the
parsed `args` values are never consulted (they occur nowhere else in
`action`). -/
def actionRawFilter (_args : Args) (rows : List BRow) : List BRow :=
  raw_filtering rows none none none

/-- C10: the pipeline's raw-filtering stage returns its input unchanged
and is independent of the parsed identity/coverage arguments; moreover
`raw_filtering` with all-`None` parameters — or all-zero ones, since the
guards test truthiness — is the identity. -/
theorem raw_filtering_inert (rows : List BRow) (a b : Args) :
    actionRawFilter a rows = rows ∧
      actionRawFilter a rows = actionRawFilter b rows ∧
      raw_filtering rows none none none = rows ∧
      raw_filtering rows (some 0) (some 0) (some 0) = rows := by
  have h0 : raw_filtering rows (some 0) (some 0) (some 0) = rows := by
    simp [raw_filtering]
  exact ⟨rfl, rfl, rfl, h0⟩

/-! ### The `[no blast result]` sentinel (`classifier.py:547-548, 651,
675-680, 715`)

After selection, the retained detail rows each carry a `qseqid`.  The
outer join with the original qseqid set (`classifier.py:651`) reintroduces
one all-null row for every query id with no remaining hit; the specimen
join (`classifier.py:675`, inner) attaches a specimen label —
`specimenOf` is that lookup (total for the `--specimen`/default modes, a
partial map when `--specimen-map` is given).  The null rows become the
sentinel rows (`classifier.py:677-680`) and are concatenated back
(`classifier.py:715`). -/

/-- A detail row as carried into the output stage: specimen label,
query id, assignment text, and assignment hash (the unsigned 64-bit
value of the Python hash; 0 is the sentinel). -/
structure FinalRow where
  specimen : String
  qseqid : String
  assignment : String
  assignment_hash : ℕ
deriving DecidableEq, Repr

/-- The query ids the outer join reintroduces as all-null rows
(`classifier.py:651`): original qseqids with no surviving blast row. -/
def missingQueries (qseqids selectedQ : List String) : List String :=
  qseqids.filter (fun q => !(selectedQ.contains q))

/-- The `no_hits` rows (`classifier.py:675-680`): each reintroduced query
that receives a specimen label becomes one row with assignment
`[no blast result]` and assignment_hash 0. -/
def sentinelRows (qseqids selectedQ : List String)
    (specimenOf : String → Option String) : List FinalRow :=
  (missingQueries qseqids selectedQ).filterMap (fun q =>
    (specimenOf q).map (fun sp => ⟨sp, q, "[no blast result]", 0⟩))

/-- `pd.concat([blast_results, no_hits])` (`classifier.py:715`): the
retained detail rows together with the sentinel rows for the queries
absent from them. -/
def concatNoHits (blastRows : List FinalRow) (qseqids : List String)
    (specimenOf : String → Option String) : List FinalRow :=
  blastRows ++ sentinelRows qseqids (blastRows.map (fun r => r.qseqid)) specimenOf

/-- C9: every query id of the original hit table that retains no row
after filtering and validity selection, and that carries a specimen
label, contributes a row whose assignment is the literal
`[no blast result]` and whose assignment_hash is 0. -/
theorem no_blast_result_row (blastRows : List FinalRow) (qseqids : List String)
    (specimenOf : String → Option String) (q sp : String)
    (hq : q ∈ qseqids) (hnone : ∀ r ∈ blastRows, r.qseqid ≠ q)
    (hsp : specimenOf q = some sp) :
    (⟨sp, q, "[no blast result]", 0⟩ : FinalRow) ∈
      concatNoHits blastRows qseqids specimenOf := by
  refine List.mem_append_right _ ?_
  refine List.mem_filterMap.mpr ⟨q, ?_, by rw [hsp]; rfl⟩
  refine List.mem_filter.mpr ⟨hq, ?_⟩
  have hnc : (blastRows.map (fun r => r.qseqid)).contains q = false := by
    rw [List.contains_eq_any_beq, List.any_eq_false]
    intro x hx
    obtain ⟨r, hr, rfl⟩ := List.mem_map.mp hx
    simpa using (hnone r hr).symm
  rw [hnc]
  rfl

/-- Witness for C9's theorem: one query, zero retained rows, default
specimen labelling (specimen = qseqid). -/
theorem no_blast_result_row_witness :
    (⟨"q1", "q1", "[no blast result]", 0⟩ : FinalRow) ∈
      concatNoHits [] ["q1"] (fun q => some q) :=
  no_blast_result_row [] ["q1"] (fun q => some q) "q1" "q1"
    (List.mem_singleton.mpr rfl) (fun r hr => absurd hr (List.not_mem_nil r)) rfl

/-! ### Final ordering and per-specimen assignment ids
(`classifier.py:783-790`, `assignment_id` at `classifier.py:313-319`)

`output.sort(columns, ascending=False)` sorts by the corrected-or-reads
count, the cluster count AND the assignment label, ALL descending
(`ascending=False` applies to every listed column).  The later
`sort_index()` only groups rows by specimen (treated as stable, it keeps
the within-specimen order), and
`groupby(level="specimen", sort=False).apply(assignment_id)` numbers each
specimen's rows 0, 1, 2, … in their current order. -/

/-- One summary-output row with the three sort columns: `count` is the
`corrected` column when a copy-number table was supplied, else `reads`
(`classifier.py:783`). -/
structure OutRow where
  specimen : String
  count : ℚ
  clusters : ℕ
  assignment : String
deriving DecidableEq, Repr

/-- The composite sort key of a row (count, clusters, assignment),
compared lexicographically; the label is compared as its character list,
matching Python's lexicographic string comparison. -/
def outKey (r : OutRow) : ℚ ×ₗ (ℕ ×ₗ List Char) :=
  toLex (r.count, toLex (r.clusters, r.assignment.data))

/-- Row order of `output.sort(columns=..., ascending=False)`
(`classifier.py:785`): `a` precedes `b` when `a`'s key is lexicographically
at least `b`'s — every listed column descending. -/
def outLE (a b : OutRow) : Prop := outKey b ≤ outKey a

instance : DecidableRel outLE :=
  fun a b => inferInstanceAs (Decidable (outKey b ≤ outKey a))

instance : IsTrans OutRow outLE :=
  ⟨fun _ _ _ h1 h2 => le_trans h2 h1⟩

instance : IsTotal OutRow outLE :=
  ⟨fun a b => le_total (outKey b) (outKey a)⟩

/-- The descending multi-column sort (`classifier.py:783-785`), modelled
as a stable sort by `outKey` descending. -/
def sortOutput (rows : List OutRow) : List OutRow :=
  List.insertionSort outLE rows

/-- The per-specimen numbering of
`groupby(level="specimen", sort=False).apply(assignment_id)`
(`classifier.py:313-319, 790`): walk the rows in order keeping one
counter per specimen; each row receives its specimen's current counter
value as `assignment_id`. -/
def assignIdsAux : List (String × ℕ) → List OutRow → List (OutRow × ℕ)
  | _, [] => []
  | seen, row :: rest =>
      let c := (seen.lookup row.specimen).getD 0
      (row, c) :: assignIdsAux ((row.specimen, c + 1) :: seen) rest

/-- The rows of the final summary: sorted, then numbered per specimen. -/
def finalOutput (rows : List OutRow) : List (OutRow × ℕ) :=
  assignIdsAux [] (sortOutput rows)

theorem assignIdsAux_filter_spec (sp : String) :
    ∀ (l : List OutRow) (seen : List (String × ℕ)),
      ((assignIdsAux seen l).filter (fun x => x.1.specimen == sp)).map Prod.fst =
          l.filter (fun r => r.specimen == sp) ∧
        ((assignIdsAux seen l).filter (fun x => x.1.specimen == sp)).map Prod.snd =
          List.range' ((seen.lookup sp).getD 0)
            (l.filter (fun r => r.specimen == sp)).length := by
  intro l
  induction l with
  | nil => exact fun seen => ⟨rfl, rfl⟩
  | cons row rest ih =>
      intro seen
      obtain ⟨ih1, ih2⟩ := ih ((row.specimen, (seen.lookup row.specimen).getD 0 + 1) :: seen)
      simp only [assignIdsAux, List.filter_cons]
      cases hsp : (row.specimen == sp) with
      | true =>
          have hspe : row.specimen = sp := of_decide_eq_true hsp
          have hlook : (((row.specimen, (seen.lookup row.specimen).getD 0 + 1) :: seen).lookup sp).getD 0 =
              (seen.lookup row.specimen).getD 0 + 1 := by
            rw [hspe]
            simp [List.lookup_cons]
          rw [hlook] at ih2
          constructor
          · rw [if_pos rfl, if_pos rfl, List.map_cons, ih1]
          · rw [if_pos rfl, if_pos rfl, List.map_cons, ih2, List.length_cons,
              List.range'_succ, hspe]
      | false =>
          have hbe : (sp == row.specimen) = false := by
            have hspe : row.specimen ≠ sp := by
              intro hc
              rw [hc] at hsp
              simp at hsp
            simpa using fun hc => hspe hc.symm
          have hlook : (((row.specimen, (seen.lookup row.specimen).getD 0 + 1) :: seen).lookup sp).getD 0 =
              (seen.lookup sp).getD 0 := by
            rw [List.lookup_cons, hbe]
          rw [hlook] at ih2
          constructor
          · rw [if_neg Bool.false_ne_true, if_neg Bool.false_ne_true]
            exact ih1
          · rw [if_neg Bool.false_ne_true, if_neg Bool.false_ne_true]
            exact ih2

/-- C6 (amended): within each specimen the final rows are ordered by the
corrected-or-reads count descending, then cluster count descending, then
assignment label DESCENDING (`ascending=False` covers the label column
too), and `assignment_id` is 0, 1, 2, … per specimen in exactly that
order. -/
theorem final_output_order (rows : List OutRow) (sp : String) :
    List.Sorted outLE
        (((finalOutput rows).filter (fun x => x.1.specimen == sp)).map Prod.fst) ∧
      ((finalOutput rows).filter (fun x => x.1.specimen == sp)).map Prod.snd =
        List.range
          (((finalOutput rows).filter (fun x => x.1.specimen == sp)).length) := by
  obtain ⟨h1, h2⟩ := assignIdsAux_filter_spec sp (sortOutput rows) []
  constructor
  · rw [finalOutput, h1]
    exact (List.sorted_insertionSort outLE rows).sublist (List.filter_sublist _)
  · rw [finalOutput, h2]
    have hlen : ((assignIdsAux [] (sortOutput rows)).filter
          (fun x => x.1.specimen == sp)).length =
        ((sortOutput rows).filter (fun r => r.specimen == sp)).length := by
      rw [← h1, List.length_map]
    rw [hlen, List.range_eq_range']
    rfl

/-- Witness for C6's theorem at a two-row specimen whose rows tie on the
counts and differ only in the assignment label. -/
theorem final_output_order_witness :
    List.Sorted outLE
        (((finalOutput [⟨"s", 1, 1, "A"⟩, ⟨"s", 1, 1, "B"⟩]).filter
          (fun x => x.1.specimen == "s")).map Prod.fst) ∧
      ((finalOutput [⟨"s", 1, 1, "A"⟩, ⟨"s", 1, 1, "B"⟩]).filter
          (fun x => x.1.specimen == "s")).map Prod.snd =
        List.range
          (((finalOutput [⟨"s", 1, 1, "A"⟩, ⟨"s", 1, 1, "B"⟩]).filter
            (fun x => x.1.specimen == "s")).length) :=
  final_output_order [⟨"s", 1, 1, "A"⟩, ⟨"s", 1, 1, "B"⟩] "s"

/-- C6 counterexample: two rows of one specimen tie on count and
clusters and differ only in the assignment label; the label "A" sorts
before "B", yet the row labelled "B" comes first and receives
assignment_id 0 — the label column is sorted descending, not
ascending. -/
theorem assignment_sorted_descending_counterexample :
    (finalOutput [⟨"s", 1, 1, "A"⟩, ⟨"s", 1, 1, "B"⟩]).map
        (fun x => (x.1.assignment, x.2)) = [("B", 0), ("A", 1)] ∧
      ("A" : String).data < ("B" : String).data := by
  decide

/-! ### The assignment hash (`condense_ids`, `classifier.py:278-298`)

`assignment_hash = hash(frozenset(condensed.condensed_id.unique()))`
(`classifier.py:296`).  The condensed ids are `str` values; the source
runs on CPython 2.7 (64-bit, default unset hash seed), whose `hash` is
modelled exactly, as unsigned 64-bit numbers (mod `2^64`; the two's
complement value and the unsigned value are equal exactly when the hashes
are).  The set's iteration order is irrelevant because the element hashes
are combined by XOR, which is commutative and associative. -/

/-- `2^64`, the modulus of CPython's 64-bit `long` hash arithmetic. -/
def W64 : ℕ := 18446744073709551616

/-- The byte loop of CPython 2.7 `string_hash`:
`while (--len >= 0) x = (1000003*x) ^ *p++;`.  Tax_id strings are ASCII,
so `Char.toNat` is the byte value. -/
def pyStrHashLoop : ℕ → List Char → ℕ
  | x, [] => x
  | x, c :: rest => pyStrHashLoop (((1000003 * x) % W64) ^^^ c.toNat) rest

/-- CPython 2.7 `string_hash` (Objects/stringobject.c), with the default
zero hash secret: `""` hashes to 0; otherwise `x = *p << 7`, the byte
loop over the whole string, `x ^= len`, and `-1` is patched to `-2`. -/
def pyStrHash (s : String) : ℕ :=
  match s.data with
  | [] => 0
  | c :: _ =>
      let x1 := pyStrHashLoop ((c.toNat <<< 7) % W64) s.data
      let x2 := x1 ^^^ s.data.length
      if x2 = W64 - 1 then W64 - 2 else x2

/-- The per-element dispersion step of CPython 2.7 `frozenset_hash`:
`hash ^= (h ^ (h << 16) ^ 89869747L) * 3644798167u`. -/
def pyShuffle (h : ℕ) : ℕ :=
  ((h ^^^ ((h <<< 16) % W64) ^^^ 89869747) * 3644798167) % W64

/-- CPython 2.7 `frozenset_hash` (Objects/setobject.c) before its final
`-1` patch: `hash = 1927868237 * (size + 1)`, XOR of the shuffled element
hashes, then `hash = hash * 69069 + 907133923`. -/
def pyFrozensetHashRaw (elems : List String) : ℕ :=
  ((elems.foldl (fun acc s => acc ^^^ pyShuffle (pyStrHash s))
      ((1927868237 * (elems.length + 1)) % W64)) * 69069 + 907133923) % W64

/-- CPython 2.7 `frozenset_hash`: the raw value, with `-1` (unsigned
`2^64 - 1`) patched to `590923713`.  The argument list enumerates the
set's distinct elements (in any order — the XOR makes the result
order-independent). -/
def pyFrozensetHash (elems : List String) : ℕ :=
  if pyFrozensetHashRaw elems = W64 - 1 then 590923713
  else pyFrozensetHashRaw elems

/-- `hash(frozenset(condensed.condensed_id.unique()))`
(`classifier.py:296`): the hash of the set of distinct condensed ids of
one specimen+query-cluster group. -/
def assignment_hash (condensed_ids : List String) : ℕ :=
  pyFrozensetHash condensed_ids.dedup

theorem pyFrozensetHash_lt (elems : List String) : pyFrozensetHash elems < W64 := by
  unfold pyFrozensetHash
  split
  · decide
  · exact Nat.mod_lt _ (by decide)

/-- The string of `n` letters `a`; distinct lengths give distinct
strings, hence distinct singleton condensed_id sets. -/
def aString (n : ℕ) : String := String.mk (List.replicate n 'a')

/-- C4 counterexample: `assignment_hash` maps the infinitely many
distinct singleton condensed_id sets into the finitely many 64-bit hash
values, so two groups with DIFFERENT condensed_id sets share an
assignment_hash — the claimed equivalence (hash equality iff set
equality) is false: its only-if direction admits collisions. -/
theorem assignment_hash_collision_counterexample :
    ¬ ∀ (ids1 ids2 : List String),
        (assignment_hash ids1 = assignment_hash ids2 ↔
          ids1.toFinset = ids2.toFinset) := by
  intro hiff
  have hlt : ∀ n : ℕ, assignment_hash [aString n] < W64 :=
    fun n => pyFrozensetHash_lt _
  obtain ⟨m, n, hmn, heq⟩ := Finite.exists_ne_map_eq_of_infinite
    (fun k : ℕ => (⟨assignment_hash [aString k], hlt k⟩ : Fin W64))
  have hval0 := congrArg Fin.val heq
  dsimp only at hval0
  have hval : assignment_hash [aString m] = assignment_hash [aString n] := hval0
  have hset := (hiff _ _).mp hval
  have hstr : aString m = aString n := by
    have h1 : aString m ∈ ([aString n].toFinset : Finset String) := by
      rw [← hset]
      simp
    simpa using h1
  have hlen : m = n := by
    have h2 := congrArg (fun s : String => s.data.length) hstr
    simpa [aString] using h2
  exact hmn hlen

theorem foldl_xor_perm (l1 l2 : List String) (p : l1.Perm l2) (b : ℕ) :
    l1.foldl (fun acc s => acc ^^^ pyShuffle (pyStrHash s)) b =
      l2.foldl (fun acc s => acc ^^^ pyShuffle (pyStrHash s)) b := by
  refine p.foldl_eq' ?_ b
  intro x _ y _ z
  rw [Nat.xor_assoc, Nat.xor_assoc, Nat.xor_comm (pyShuffle (pyStrHash x))]

/-- C4 (amended): two specimen+query-cluster groups whose sets of
distinct condensed_ids are equal — whatever the order or multiplicity of
the underlying rows — always receive the same assignment_hash, hence the
same Assignment downstream; the CONVERSE does not hold: `hash(frozenset)`
has 2^64 possible values, so distinct sets can collide. -/
theorem assignment_hash_of_set_eq (ids1 ids2 : List String)
    (h : ids1.toFinset = ids2.toFinset) :
    assignment_hash ids1 = assignment_hash ids2 := by
  have hperm : ids1.dedup.Perm ids2.dedup :=
    List.toFinset_eq_iff_perm_dedup.mp h
  have hraw : pyFrozensetHashRaw ids1.dedup = pyFrozensetHashRaw ids2.dedup := by
    unfold pyFrozensetHashRaw
    rw [hperm.length_eq, foldl_xor_perm _ _ hperm]
  unfold assignment_hash pyFrozensetHash
  rw [hraw]

/-- Witness for C4's theorem: {a, b} presented in different orders and
multiplicities. -/
theorem assignment_hash_of_set_eq_witness :
    assignment_hash ["a", "b", "b"] = assignment_hash ["b", "a"] :=
  assignment_hash_of_set_eq ["a", "b", "b"] ["b", "a"] (by decide)

end Bioy
